import Mathlib

/-!
# Verification of the MIMOSIS-1 slow-control core (mimosis.py)

Shallow embedding of the register-access protocol, the simulated device,
the register-block I/O loops, the bit-flip detection loop, and the
beam-position subscriber of `src/mimosis/mimosis.py`, together with
theorems settling the specification claims.

Machine bytes are modelled as `Nat` with explicit masking, matching the
Python source, which also computes on unbounded integers and masks
explicitly.  Fallible Python code (exceptions) is modelled with an
explicit error type that also carries the state at the moment the
exception is raised, because in Python the mutations performed before an
exception persist.
-/

namespace Mimosis

/-- Python exceptions that the modelled code can raise. -/
inductive Err where
  /-- `AttributeError`: access to `simAddrMSB`/`simAddrLSB` before assignment. -/
  | attrError
  /-- `IndexError`: sequence index out of range. -/
  | indexError
  /-- `KeyError`: dictionary lookup of a missing key. -/
  | keyError
  /-- `ValueError`: `int()` applied to a malformed string. -/
  | valueError
deriving DecidableEq, Repr

/-- Result of running a stateful fragment: like Python, the state at the
moment an exception is raised is kept (`err` carries it). -/
inductive Res (σ : Type) (α : Type) where
  | ok (s : σ) (a : α)
  | err (s : σ) (e : Err)
deriving DecidableEq, Repr

/-- The state component of a result (final state, also on error). -/
def Res.state : Res σ α → σ
  | .ok s _ => s
  | .err s _ => s

/-- The error component of a result, if any. -/
def Res.error? : Res σ α → Option Err
  | .ok _ _ => none
  | .err _ e => some e

/-- The value component of a result, if it succeeded. -/
def Res.value? : Res σ α → Option α
  | .ok _ a => some a
  | .err _ _ => none

/-- The command-id dictionary `self.CMDID` built in `Msis1.__init__` from
`enumerate(['INSTR','ADD_MSB','ADD_LSB','WR','RD','WR_IND','RD_IND','WR_OFF','RD_OFF'], start=1)`;
`none` models a `KeyError` on lookup. -/
def CMDID : String → Option Nat
  | "INSTR"   => some 1
  | "ADD_MSB" => some 2
  | "ADD_LSB" => some 3
  | "WR"      => some 4
  | "RD"      => some 5
  | "WR_IND"  => some 6
  | "RD_IND"  => some 7
  | "WR_OFF"  => some 8
  | "RD_OFF"  => some 9
  | _         => none

/-- The byte-assembly expression of `Msis1.getCmdByte`:
`(0b111 & self.chipid) << 4 | (0b1111 & cmd)` (factored out so that the
spec's `headerByte` arithmetic can be stated over numeric command codes). -/
def cmdByte (chipid cmd : Nat) : Nat :=
  ((0b111 &&& chipid) <<< 4) ||| (0b1111 &&& cmd)

/-- `Msis1.getCmdByte(cmdId)`: look up the command code in `CMDID`
(raising `KeyError`, i.e. `none`, when absent) and assemble the I2C
address byte from the chip id and the command code. -/
def getCmdByte (chipid : Nat) (cmdId : String) : Option Nat :=
  (CMDID cmdId).map (cmdByte chipid)

/-- The address table `self.ADDRS` of `Msis1.__init__`:
block name ↦ (MSB select byte, LSB base byte). -/
def ADDRS : String → Option (Nat × Nat)
  | "GenConf"   => some (0x00, 0x20)
  | "DAC"       => some (0x00, 0x40)
  | "SeqConf"   => some (0x00, 0x60)
  | "PixCtrl"   => some (0x00, 0x80)
  | "Mon"       => some (0x00, 0xE0)
  | "MFE"       => some (0x80, 0x00)
  | "AnaPixSel" => some (0x80, 0x20)
  | "RoTstConf" => some (0x80, 0x40)
  | _           => none

/-- The simulated chip state of `Msis1` in simulation mode: the 256×256
grid `self.simRegs` (each cell a byte sequence, initially `[0x00, 0x00]`),
and the pending row/column selectors `simAddrMSB` / `simAddrLSB`, which do
not exist before the first `ADD_MSB` / `ADD_LSB` transaction (`none`
models the missing attribute). -/
structure SimState where
  regs : Nat → Nat → List Nat
  msb : Option Nat
  lsb : Option Nat

/-- The simulated device as constructed by `Msis1.__init__(sim=True)`:
every cell holds `[0x00, 0x00]` and neither selector has been set. -/
def initSim : SimState :=
  { regs := fun _ _ => [0x00, 0x00], msb := none, lsb := none }

/-- Store `v` into cell `(m, l)` of the grid, leaving all other cells
unchanged (the effect of `self.simRegs[m][l] = args`). -/
def updateCell (regs : Nat → Nat → List Nat) (m l : Nat) (v : List Nat) :
    Nat → Nat → List Nat :=
  fun a b => if a = m ∧ b = l then v else regs a b

/-- `Msis1.writeSim(addr, *args)`: an `ADD_LSB` / `ADD_MSB` transaction
with exactly one payload byte sets the pending column / row selector; a
`WR` transaction stores the payload tuple into the selected cell (an
unset selector raises `AttributeError`, an out-of-range selector raises
`IndexError` on the 256-entry lists); any other address byte does
nothing.  The return value is `len(args)`. -/
def writeSim (chipid : Nat) (st : SimState) (addr : Nat) (args : List Nat) :
    Res SimState Nat :=
  if getCmdByte chipid "ADD_LSB" = some addr ∧ args.length = 1 then
    .ok { st with lsb := some (args.headD 0) } args.length
  else if getCmdByte chipid "ADD_MSB" = some addr ∧ args.length = 1 then
    .ok { st with msb := some (args.headD 0) } args.length
  else if getCmdByte chipid "WR" = some addr then
    match st.msb, st.lsb with
    | some m, some l =>
      if m < 256 ∧ l < 256 then
        .ok { st with regs := updateCell st.regs m l args } args.length
      else .err st .indexError
    | _, _ => .err st .attrError
  else
    .ok st args.length

/-- `Msis1.readSim(addr, *args)`: every read call in this module passes
no extra arguments, so `len(*args)` raises `TypeError` and the handler
sets `length = 1`; an `RD` transaction then returns `reg[0]` of the
selected cell (unset selector: `AttributeError`; out-of-range selector or
empty cell: `IndexError`); any other address byte prints
"address mismatch!" and returns `len(args) = 0`. -/
def readSim (chipid : Nat) (st : SimState) (addr : Nat) : Res SimState Nat :=
  if getCmdByte chipid "RD" = some addr then
    match st.msb, st.lsb with
    | some m, some l =>
      if m < 256 ∧ l < 256 then
        match (st.regs m l).head? with
        | some v => .ok st v
        | none => .err st .indexError
      else .err st .indexError
    | _, _ => .err st .attrError
  else
    .ok st 0

/-- The transport interface (`self.chipwrite` / `self.chipread`): the two
injected functions the protocol code is written against.  `Msis1.read`
adds an optional fault-injection layer on top (`readWithFlip` below);
with `simReadFlip = False` (the default, and the setting of every claim
about the transport) `Msis1.read` equals `chipread`. -/
structure Transport (σ : Type) where
  write : σ → Nat → List Nat → Res σ Nat
  read : σ → Nat → Res σ Nat

/-- The simulated-device transport: `chipwrite = writeSim`,
`chipread = readSim`, as wired by `Msis1.__init__(sim=True)`. -/
def simT (chipid : Nat) : Transport SimState :=
  { write := writeSim chipid, read := readSim chipid }

/-- One recorded transaction on a tracing transport stub. -/
inductive Txn where
  | wr (addr : Nat) (payload : List Nat)
  | rd (addr : Nat)
deriving DecidableEq, Repr

/-- A transport stub that records every transaction in order (reads
return `0`). -/
def traceT : Transport (List Txn) :=
  { write := fun tr addr args => .ok (tr ++ [.wr addr args]) args.length,
    read := fun tr addr => .ok (tr ++ [.rd addr]) 0 }

/-- A transport stub that merely counts transactions (reads return `0`). -/
def countT : Transport Nat :=
  { write := fun n _ args => .ok (n + 1) args.length,
    read := fun n _ => .ok (n + 1) 0 }

/-- Look up a command byte for the literal command names used by the
protocol code; a missing name is the `KeyError` of `self.CMDID[cmdId]`. -/
def withCmd (chipid : Nat) (cmdId : String) (st : σ) (k : Nat → Res σ α) :
    Res σ α :=
  match getCmdByte chipid cmdId with
  | none => .err st .keyError
  | some a => k a

/-- `buf[i] = v` on a Python bytearray: in-range assignment, `IndexError`
otherwise. -/
def setIdx (l : List Nat) (i : Nat) (v : Nat) : Option (List Nat) :=
  if i < l.length then some (l.set i v) else none

/-- Return value of the block read/write methods: `fail` models the
Python `return False` of a failed precondition, `done buf n` models
`return len(buf)` together with the (possibly filled) buffer. -/
inductive RwRet where
  | fail
  | done (buf : List Nat) (n : Nat)
deriving DecidableEq, Repr

/-- The per-offset loop of `Msis1.rwReg16w`: for each offset `i` issue an
`ADD_LSB` transaction with byte `(ADDRS[type][1] & 0b1111_0000) | i`, then
either read one byte into `buf[i]` (`mode == 'r'`) or write `buf[i]`
(`mode == 'w'`).  `fuel` counts the remaining iterations of
`range(len(buf))`. -/
def rwLoopGo (T : Transport σ) (chipid lsbBase : Nat) (mode : Char)
    (buf : List Nat) (i : Nat) (fuel : Nat) (st : σ) : Res σ (List Nat) :=
  match fuel with
  | 0 => .ok st buf
  | fuel' + 1 =>
    withCmd chipid "ADD_LSB" st fun aLSB =>
    match T.write st aLSB [(lsbBase &&& 0xF0) ||| i] with
    | .err s e => .err s e
    | .ok s _ =>
      if mode = 'r' then
        withCmd chipid "RD" s fun aRD =>
        match T.read s aRD with
        | .err s2 e => .err s2 e
        | .ok s2 v =>
          match setIdx buf i v with
          | none => .err s2 .indexError
          | some buf2 => rwLoopGo T chipid lsbBase mode buf2 (i + 1) fuel' s2
      else
        match buf[i]? with
        | none => .err s .indexError
        | some b =>
          withCmd chipid "WR" s fun aWR =>
          match T.write s aWR [b] with
          | .err s2 e => .err s2 e
          | .ok s2 _ => rwLoopGo T chipid lsbBase mode buf (i + 1) fuel' s2

/-- `Msis1.rwReg16w(type, buf, mode)`: reject a type outside
GenConf/DAC/Mon (`return False`); reject `buf is None` (`confLoaded` is
always `False` because `loadChipConf` is commented out, so this also
returns `False`); reject a too-small buffer (`return False`, the
SizeError of the spec); otherwise issue one `ADD_MSB` transaction with
`ADDRS[type][0]` and run the per-offset loop over `range(len(buf))`,
finally returning `len(buf)`. -/
def rwReg16w (T : Transport σ) (chipid : Nat) (type : String)
    (buf? : Option (List Nat)) (mode : Char) (st : σ) : Res σ RwRet :=
  if type ≠ "GenConf" ∧ type ≠ "DAC" ∧ type ≠ "Mon" then .ok st .fail
  else
    match buf? with
    | none => .ok st .fail
    | some buf =>
      if type = "GenConf" ∧ buf.length < 16 then .ok st .fail
      else if (type = "DAC" ∨ type = "Mon") ∧ buf.length < 15 then .ok st .fail
      else
        match ADDRS type with
        | none => .err st .keyError
        | some addrs =>
          withCmd chipid "ADD_MSB" st fun aMSB =>
          match T.write st aMSB [addrs.1] with
          | .err s e => .err s e
          | .ok s _ =>
            match rwLoopGo T chipid addrs.2 mode buf 0 buf.length s with
            | .err s2 e => .err s2 e
            | .ok s2 buf2 => .ok s2 (.done buf2 buf2.length)

/-- `Msis1.readMon()`: allocates `bytearray(15)` and calls
`rwReg16w("DAC", readBytes, 'r')` — note the block name it passes is
`"DAC"`, not `"Mon"` — then returns the buffer (unchanged if `rwReg16w`
returned `False`). -/
def readMon (T : Transport σ) (chipid : Nat) (st : σ) : Res σ (List Nat) :=
  match rwReg16w T chipid "DAC" (some (List.replicate 15 0)) 'r' st with
  | .err s e => .err s e
  | .ok s .fail => .ok s (List.replicate 15 0)
  | .ok s (.done b _) => .ok s b

/-- The per-offset loop of `Msis1.rwRoTstConf`: starting at
`offset = 0x40`, for each `i in range(20)` issue an `ADD_LSB` transaction
with byte `offset`, read into / write from `buf[i]`, and increment
`offset`.  `fuel` counts the remaining iterations. -/
def roTstGo (T : Transport σ) (chipid : Nat) (mode : Char)
    (buf : List Nat) (offset i : Nat) (fuel : Nat) (st : σ) : Res σ (List Nat) :=
  match fuel with
  | 0 => .ok st buf
  | fuel' + 1 =>
    withCmd chipid "ADD_LSB" st fun aLSB =>
    match T.write st aLSB [offset] with
    | .err s e => .err s e
    | .ok s _ =>
      if mode = 'r' then
        withCmd chipid "RD" s fun aRD =>
        match T.read s aRD with
        | .err s2 e => .err s2 e
        | .ok s2 v =>
          match setIdx buf i v with
          | none => .err s2 .indexError
          | some buf2 => roTstGo T chipid mode buf2 (offset + 1) (i + 1) fuel' s2
      else
        match buf[i]? with
        | none => .err s .indexError
        | some b =>
          withCmd chipid "WR" s fun aWR =>
          match T.write s aWR [b] with
          | .err s2 e => .err s2 e
          | .ok s2 _ => roTstGo T chipid mode buf (offset + 1) (i + 1) fuel' s2

/-- `Msis1.rwRoTstConf(buf, mode)`: issue one `ADD_MSB` transaction with
`ADDRS["RoTstConf"][0]` (0x80), then run the 20-step offset loop starting
at 0x40, and return `len(buf)`. -/
def rwRoTstConf (T : Transport σ) (chipid : Nat) (buf : List Nat)
    (mode : Char) (st : σ) : Res σ RwRet :=
  match ADDRS "RoTstConf" with
  | none => .err st .keyError
  | some addrs =>
    withCmd chipid "ADD_MSB" st fun aMSB =>
    match T.write st aMSB [addrs.1] with
    | .err s e => .err s e
    | .ok s _ =>
      match roTstGo T chipid mode buf 0x40 0 20 s with
      | .err s2 e => .err s2 e
      | .ok s2 buf2 => .ok s2 (.done buf2 buf2.length)

/-- The inner frame loop of `Msis1.rwMFE`: for each
`frame in range(8)` issue an `ADD_LSB` transaction with byte
`(ADDRS["MFE"][1] & 0b1111_1000) | (frame & 0b111)` and transfer
`buf[region*8 + frame]`.  `fuel` counts the remaining frames. -/
def mfeFrameGo (T : Transport σ) (chipid : Nat) (mode : Char) (l0 : Nat)
    (buf : List Nat) (region frame : Nat) (fuel : Nat) (st : σ) :
    Res σ (List Nat) :=
  match fuel with
  | 0 => .ok st buf
  | fuel' + 1 =>
    withCmd chipid "ADD_LSB" st fun aLSB =>
    match T.write st aLSB [(l0 &&& 0xF8) ||| (frame &&& 0x7)] with
    | .err s e => .err s e
    | .ok s _ =>
      if mode = 'r' then
        withCmd chipid "RD" s fun aRD =>
        match T.read s aRD with
        | .err s2 e => .err s2 e
        | .ok s2 v =>
          match setIdx buf (region * 8 + frame) v with
          | none => .err s2 .indexError
          | some buf2 =>
            mfeFrameGo T chipid mode l0 buf2 region (frame + 1) fuel' s2
      else
        match buf[region * 8 + frame]? with
        | none => .err s .indexError
        | some b =>
          withCmd chipid "WR" s fun aWR =>
          match T.write s aWR [b] with
          | .err s2 e => .err s2 e
          | .ok s2 _ =>
            mfeFrameGo T chipid mode l0 buf region (frame + 1) fuel' s2

/-- The outer region loop of `Msis1.rwMFE`: for each
`region in range(64)` issue an `ADD_MSB` transaction with byte
`(ADDRS["MFE"][0] & 0b1000_0000) | (region & 0b11_1111)` and run the
8-frame inner loop.  `fuel` counts the remaining regions. -/
def mfeRegionGo (T : Transport σ) (chipid : Nat) (mode : Char) (m0 l0 : Nat)
    (buf : List Nat) (region : Nat) (fuel : Nat) (st : σ) : Res σ (List Nat) :=
  match fuel with
  | 0 => .ok st buf
  | fuel' + 1 =>
    withCmd chipid "ADD_MSB" st fun aMSB =>
    match T.write st aMSB [(m0 &&& 0x80) ||| (region &&& 0x3F)] with
    | .err s e => .err s e
    | .ok s _ =>
      match mfeFrameGo T chipid mode l0 buf region 0 8 s with
      | .err s2 e => .err s2 e
      | .ok s2 buf2 => mfeRegionGo T chipid mode m0 l0 buf2 (region + 1) fuel' s2

/-- `Msis1.rwMFE(buf, mode)`: the two-dimensional
64-region × 8-frame transfer of the Multi Frame Emulation memory; no
buffer-size validation is performed, and the method returns `len(buf)`. -/
def rwMFE (T : Transport σ) (chipid : Nat) (buf : List Nat) (mode : Char)
    (st : σ) : Res σ RwRet :=
  match ADDRS "MFE" with
  | none => .err st .keyError
  | some addrs =>
    match mfeRegionGo T chipid mode addrs.1 addrs.2 buf 0 64 st with
    | .err s e => .err s e
    | .ok s buf2 => .ok s (.done buf2 buf2.length)

/-- The fault-injection layer of `Msis1.read` when `simReadFlip` is
enabled, with the two `random.randint` draws made explicit inputs:
`draw1 = random.randint(0, 999)` triggers on `0`, and the code then
computes `rbit = (result << draw2) & 0x80` with
`draw2 = random.randint(0, 7)` and returns `result ^ rbit`. -/
def readWithFlip (result : Nat) (draw1 draw2 : Nat) : Nat :=
  if draw1 = 0 then
    result ^^^ ((result <<< draw2) &&& 0x80)
  else result

/-- The first-mismatch scan of `Msis1.__checkBitFlipLoop`:
`for i in range(len(self.lastRead)): if reference[i] != self.lastRead[i]`.
(In Python `reference[i]` would raise `IndexError` if the observed read
were longer than the reference; the theorems below only consider reads of
the reference's length, where `getD` agrees with the Python indexing.) -/
def firstMismatch (reference observed : List Nat) : Option Nat :=
  (List.range observed.length).find?
    (fun i => reference.getD i 0 != observed.getD i 0)

/-- State threaded through the detection loop of
`Msis1.__checkBitFlipLoop`: the reference snapshot taken before the loop,
the iteration counter, the reported bit-flip events
(reference snapshot, observed snapshot, iteration count), and the
corrective actions invoked so far, in invocation order (`α` is the opaque
type of the caller-supplied callables). -/
structure FlipState (α : Type) where
  reference : List Nat
  counter : Nat
  events : List (List Nat × List Nat × Nat)
  actions : List α

/-- The body of `Msis1.__checkBitFlipLoop` run over a finite prefix of
the read sequence: each iteration increments `counter`, takes the next
observed read, and scans it against `reference`; on the first differing
index it records the event (the two snapshots are printed and stored in
`bitFlipResult`), then either returns (`update is None`, second component
`true` = loop terminated) or invokes every corrective action in list
order, breaks the inner scan, and continues polling.  An exhausted read
list with the loop still polling yields `false` (the real loop would
`await` the next read). -/
def checkBitFlipGo (update : Option (List α)) (st : FlipState α) :
    List (List Nat) → FlipState α × Bool
  | [] => (st, false)
  | observed :: rest =>
    let st1 : FlipState α := { st with counter := st.counter + 1 }
    match firstMismatch st1.reference observed with
    | none => checkBitFlipGo update st1 rest
    | some _ =>
      let st2 : FlipState α :=
        { st1 with events := st1.events ++ [(st1.reference, observed, st1.counter)] }
      match update with
      | none => (st2, true)
      | some us => checkBitFlipGo update { st2 with actions := st2.actions ++ us } rest

/-- `Msis1.__checkBitFlipLoop(function, interval, update)` on an explicit
finite read sequence: the first read becomes the reference
(`reference = self.lastRead` right after the initial
`self.lastRead = function()`), then the loop body runs on the remaining
reads.  `none` if no initial read is available. -/
def checkBitFlipLoop (update : Option (List α)) :
    List (List Nat) → Option (FlipState α × Bool)
  | [] => none
  | ref :: rest =>
    some (checkBitFlipGo update
      { reference := ref, counter := 0, events := [], actions := [] } rest)

/-- Python `str.split(' ')` on the character list: split at every single
space, keeping empty words (no collapsing of separators). -/
def splitChars : List Char → List (List Char)
  | [] => [[]]
  | c :: rest =>
    match splitChars rest with
    | [] => [[]]
    | w :: ws => if c = ' ' then [] :: w :: ws else (c :: w) :: ws

/-- Python `msg.split(' ')`, as used by
`MicrobeamSubscriberSocket.read_msg`. -/
def pySplit (s : String) : List String :=
  (splitChars s.data).map (fun cs => String.mk cs)

/-- The whitespace characters Python's `int()` strips. -/
def isPySpace (c : Char) : Bool :=
  c = ' ' ∨ c = '\n' ∨ c = '\t' ∨ c = '\r'

/-- Decimal digit accumulation for `pyIntChars`; `none` on the first
non-digit character. -/
def digitsVal (acc : Nat) : List Char → Option Nat
  | [] => some acc
  | c :: cs =>
    if c.isDigit then digitsVal (acc * 10 + (c.toNat - '0'.toNat)) cs else none

/-- Python `int(s)` on a character list, for decimal literals: strip
surrounding whitespace, allow one leading sign, then require a nonempty
digit string; `none` models the `ValueError` on anything else. -/
def pyIntChars (cs : List Char) : Option Int :=
  let cs1 := ((cs.dropWhile isPySpace).reverse.dropWhile isPySpace).reverse
  match cs1 with
  | [] => none
  | '-' :: ds => if ds = [] then none else (digitsVal 0 ds).map (fun n => -(n : Int))
  | '+' :: ds => if ds = [] then none else (digitsVal 0 ds).map (fun n => (n : Int))
  | ds => (digitsVal 0 ds).map (fun n => (n : Int))

/-- Python `int(s)` for the numeric fields of the beam-position feed. -/
def pyInt (s : String) : Option Int := pyIntChars s.data

/-- The beam-position snapshot held by `MicrobeamSubscriberSocket`:
`scanId`, `scan_x`, `scan_y` are `None` until first set. -/
structure ScanPos where
  scanId : Option Int
  scan_x : Option Int
  scan_y : Option Int
deriving DecidableEq, Repr

/-- The freshly constructed subscriber: all three fields `None`. -/
def initScanPos : ScanPos := { scanId := none, scan_x := none, scan_y := none }

/-- `MicrobeamSubscriberSocket.read_msg` on one received line (the
newline is part of the line, as delivered by `readline()`): an empty line
(end of stream) is returned as-is; otherwise the line is split on spaces
and the first word selects the behavior.  There is no exception handler:
a malformed numeric field (`int()` raising `ValueError`) or a missing
word (`IndexError`) escapes, and — exactly as in Python, where the
assignments already executed persist — the state components assigned
before the raise are kept. -/
def read_msg (st : ScanPos) (line : String) : ScanPos × Option Err :=
  if line = "" then (st, none)
  else
    let words := pySplit line
    match words[0]? with
    | none => (st, some .indexError)
    | some w0 =>
      if w0 = "start_run" then
        match words[1]? with
        | none => (st, some .indexError)
        | some w1 =>
          match pyInt w1 with
          | none => (st, some .valueError)
          | some n => ({ st with scanId := some n }, none)
      else if w0 = "stop_run" then (st, none)
      else if w0 = "pos" then
        match words[1]? with
        | none => (st, some .indexError)
        | some w1 =>
          match pyInt w1 with
          | none => (st, some .valueError)
          | some x =>
            match words[2]? with
            | none => ({ st with scan_x := some x }, some .indexError)
            | some w2 =>
              match pyInt w2 with
              | none => ({ st with scan_x := some x }, some .valueError)
              | some y => ({ st with scan_x := some x, scan_y := some y }, none)
      else (st, none)

/-- The subscriber task `Msis1.__readScanPos`
(`while True: await self.tcpSocket.read_msg()`) run over a finite list of
received lines: lines are processed in order; an exception raised inside
`read_msg` is not caught anywhere, so it terminates the task, leaving the
remaining lines unread. -/
def readScanPos (st : ScanPos) : List String → ScanPos × Option Err
  | [] => (st, none)
  | l :: rest =>
    match read_msg st l with
    | (st2, none) => readScanPos st2 rest
    | (st2, some e) => (st2, some e)

/-! ## Basic facts about command bytes and the simulated device -/

theorem and7_lt8 (c : Nat) : 0b111 &&& c < 8 :=
  Nat.lt_succ_of_le Nat.and_le_left

/-- The low nibble of a command byte is the command code. -/
theorem cmdByte_and_15 (c k : Nat) (hk : k < 16) : cmdByte c k &&& 0b1111 = k := by
  have aux2 : ∀ y < 8, ∀ j < 16, ((y <<< 4) ||| j) &&& 0b1111 = j := by decide
  have aux4 : ∀ j < 16, 0b1111 &&& j = j := by decide
  have h : 0b1111 &&& k = k := aux4 k hk
  calc cmdByte c k &&& 0b1111
      = 0b1111 &&& k := aux2 (0b111 &&& c) (and7_lt8 c) (0b1111 &&& k) (by omega)
    _ = k := h

/-- Bits 6..4 of a command byte are the masked chip id. -/
theorem cmdByte_shr4_and_7 (c k : Nat) (hk : k < 16) :
    (cmdByte c k >>> 4) &&& 0b111 = 0b111 &&& c := by
  have aux1 : ∀ y < 8, ∀ j < 16, (((y <<< 4) ||| j) >>> 4) &&& 0b111 = y := by
    decide
  have aux4 : ∀ j < 16, 0b1111 &&& j = j := by decide
  have h : 0b1111 &&& k = k := aux4 k hk
  have h2 := aux1 (0b111 &&& c) (and7_lt8 c) (0b1111 &&& k) (by omega)
  exact h2

/-- Distinct command codes below 16 give distinct command bytes, for any
chip id. -/
theorem cmdByte_ne (c : Nat) {a b : Nat} (ha : a < 16) (hb : b < 16)
    (hab : a ≠ b) : cmdByte c a ≠ cmdByte c b := by
  intro h
  apply hab
  rw [← cmdByte_and_15 c a ha, ← cmdByte_and_15 c b hb, h]

theorem getCmdByte_ADD_MSB (c : Nat) : getCmdByte c "ADD_MSB" = some (cmdByte c 2) := rfl

theorem getCmdByte_ADD_LSB (c : Nat) : getCmdByte c "ADD_LSB" = some (cmdByte c 3) := rfl

theorem getCmdByte_WR (c : Nat) : getCmdByte c "WR" = some (cmdByte c 4) := rfl

theorem getCmdByte_RD (c : Nat) : getCmdByte c "RD" = some (cmdByte c 5) := rfl

theorem updateCell_self (regs : Nat → Nat → List Nat) (m l : Nat) (v : List Nat) :
    updateCell regs m l v m l = v := by simp [updateCell]

theorem updateCell_other (regs : Nat → Nat → List Nat) (m l : Nat) (v : List Nat)
    {a b : Nat} (h : a ≠ m ∨ b ≠ l) : updateCell regs m l v a b = regs a b := by
  rcases h with h | h <;> simp [updateCell, h]

theorem writeSim_ADD_LSB (c v : Nat) (st : SimState) :
    writeSim c st (cmdByte c 3) [v] = .ok { st with lsb := some v } 1 := by
  have h3 : getCmdByte c "ADD_LSB" = some (cmdByte c 3) := rfl
  simp [writeSim, h3]

theorem writeSim_ADD_MSB (c v : Nat) (st : SimState) :
    writeSim c st (cmdByte c 2) [v] = .ok { st with msb := some v } 1 := by
  have h3 : getCmdByte c "ADD_LSB" = some (cmdByte c 3) := rfl
  have h2 : getCmdByte c "ADD_MSB" = some (cmdByte c 2) := rfl
  have hne : cmdByte c 3 ≠ cmdByte c 2 :=
    cmdByte_ne c (by decide) (by decide) (by decide)
  simp [writeSim, h3, h2, hne]

theorem writeSim_WR (c b : Nat) (st : SimState) {m l : Nat}
    (hm : st.msb = some m) (hl : st.lsb = some l)
    (hm2 : m < 256) (hl2 : l < 256) :
    writeSim c st (cmdByte c 4) [b] =
      .ok { st with regs := updateCell st.regs m l [b] } 1 := by
  have h3 : getCmdByte c "ADD_LSB" = some (cmdByte c 3) := rfl
  have h2 : getCmdByte c "ADD_MSB" = some (cmdByte c 2) := rfl
  have h4 : getCmdByte c "WR" = some (cmdByte c 4) := rfl
  have hne3 : cmdByte c 3 ≠ cmdByte c 4 :=
    cmdByte_ne c (by decide) (by decide) (by decide)
  have hne2 : cmdByte c 2 ≠ cmdByte c 4 :=
    cmdByte_ne c (by decide) (by decide) (by decide)
  simp [writeSim, h3, h2, h4, hne3, hne2, hm, hl, hm2, hl2]

theorem readSim_RD (c : Nat) (st : SimState) {m l v : Nat}
    (hm : st.msb = some m) (hl : st.lsb = some l)
    (hm2 : m < 256) (hl2 : l < 256)
    (hv : (st.regs m l).head? = some v) :
    readSim c st (cmdByte c 5) = .ok st v := by
  have h5 : getCmdByte c "RD" = some (cmdByte c 5) := rfl
  simp [readSim, h5, hm, hl, hm2, hl2, hv]

/-! ## Claims C8, C9: the header byte -/

/-- C8: for every chip id 1–7 and command code 1–9 the header byte equals
`(chipId & 0b111) << 4 | (commandCode & 0b1111)`; over this domain the
assembly is injective in the pair, and bits 6..4 / 3..0 of the result
recover the pair. -/
theorem C8_headerByte_inj_decode (c1 k1 c2 k2 : Nat)
    (hc1 : 1 ≤ c1) (hc1h : c1 ≤ 7) (hk1 : 1 ≤ k1) (hk1h : k1 ≤ 9)
    (hc2 : 1 ≤ c2) (hc2h : c2 ≤ 7) (hk2 : 1 ≤ k2) (hk2h : k2 ≤ 9) :
    cmdByte c1 k1 = ((c1 &&& 0b111) <<< 4) ||| (k1 &&& 0b1111)
    ∧ ((cmdByte c1 k1 >>> 4) &&& 0b111 = c1 ∧ cmdByte c1 k1 &&& 0b1111 = k1)
    ∧ (cmdByte c1 k1 = cmdByte c2 k2 → c1 = c2 ∧ k1 = k2) := by
  have a7 : ∀ x < 8, 0b111 &&& x = x := by decide
  have hc1m : 0b111 &&& c1 = c1 := a7 c1 (by omega)
  have hc2m : 0b111 &&& c2 = c2 := a7 c2 (by omega)
  have hdc1 : (cmdByte c1 k1 >>> 4) &&& 0b111 = c1 := by
    rw [cmdByte_shr4_and_7 c1 k1 (by omega), hc1m]
  have hdk1 : cmdByte c1 k1 &&& 0b1111 = k1 := cmdByte_and_15 c1 k1 (by omega)
  refine ⟨?_, ⟨hdc1, hdk1⟩, fun h => ?_⟩
  · show ((0b111 &&& c1) <<< 4) ||| (0b1111 &&& k1) =
      ((c1 &&& 0b111) <<< 4) ||| (k1 &&& 0b1111)
    rw [Nat.and_comm 0b111 c1, Nat.and_comm 0b1111 k1]
  · constructor
    · rw [← hdc1, h, cmdByte_shr4_and_7 c2 k2 (by omega), hc2m]
    · rw [← hdk1, h, cmdByte_and_15 c2 k2 (by omega)]

/-- Witness for C8 at chip id 3, command code 5 (`RD`). -/
theorem C8_headerByte_inj_decode_witness :
    (cmdByte 3 5 >>> 4) &&& 0b111 = 3 ∧ cmdByte 3 5 &&& 0b1111 = 5 :=
  (C8_headerByte_inj_decode 3 5 1 1 (by decide) (by decide) (by decide)
    (by decide) (by decide) (by decide) (by decide) (by decide)).2.1

/-- C9 counterexample: `getCmdByte` does not fail for a chip id outside
1–7 — with chip id 8 and the valid command `"RD"` it returns the masked
byte `(8 & 0b111) << 4 | 5 = 5` instead of an error. -/
theorem C9_chipid_8_not_rejected : getCmdByte 8 "RD" = some 5 := rfl

/-- C9 amended: `getCmdByte` fails (the `KeyError` of `self.CMDID[cmdId]`)
exactly when the command id is not one of the nine command names; the
chip id is never validated — the byte is assembled from its low three
bits, so an out-of-range chip id yields a masked byte, not an error. -/
theorem C9_keyerror_only_for_unknown_command :
    (∀ (c : Nat) (s : String), (getCmdByte c s).isNone ↔ (CMDID s).isNone)
    ∧ (∀ c k : Nat, cmdByte c k = cmdByte (0b111 &&& c) k)
    ∧ getCmdByte 8 "RD" = some 5 := by
  refine ⟨fun c s => ?_, fun c k => ?_, rfl⟩
  · cases h : CMDID s <;> simp [getCmdByte, h]
  · simp [cmdByte, ← Nat.and_assoc]

/-! ## Claim C3: the read-corruption layer -/

/-- C3: evaluating the fault-injection layer at the failing inputs — with
the triggering draw and bit draw 0, the transport result `0x01` is
returned unchanged (no bit is flipped, where the claim requires bit 0 to
flip), and with bit draw 3 on `0xFF` it is bit 7 that flips, not bit 3:
the mask `(result << k) & 0x80` is bit `7−k` of the result moved to
position 7, not a single-bit flip at position `k`. -/
theorem C3_flip_mask_wrong :
    readWithFlip 0x01 0 0 = 0x01
    ∧ readWithFlip 0x01 0 0 ≠ 0x01 ^^^ (1 <<< 0)
    ∧ readWithFlip 0xFF 0 3 = 0x7F
    ∧ readWithFlip 0xFF 0 3 ≠ 0xFF ^^^ (1 <<< 3) := by decide

/-! ## Claim C10: transactions before address selection -/

/-- C10: on a freshly constructed simulated device, a WR or RD
transaction fails with `AttributeError` while either selector is still
unset: before any address transaction, after only an ADD_MSB, and after
only an ADD_LSB — for every chip id, payload and selector byte. -/
theorem C10_wr_rd_require_selectors (c v b : Nat) :
    (writeSim c initSim (cmdByte c 4) [b]).error? = some .attrError
    ∧ (readSim c initSim (cmdByte c 5)).error? = some .attrError
    ∧ (writeSim c (writeSim c initSim (cmdByte c 2) [v]).state
        (cmdByte c 4) [b]).error? = some .attrError
    ∧ (readSim c (writeSim c initSim (cmdByte c 2) [v]).state
        (cmdByte c 5)).error? = some .attrError
    ∧ (writeSim c (writeSim c initSim (cmdByte c 3) [v]).state
        (cmdByte c 4) [b]).error? = some .attrError
    ∧ (readSim c (writeSim c initSim (cmdByte c 3) [v]).state
        (cmdByte c 5)).error? = some .attrError := by
  have h3 : getCmdByte c "ADD_LSB" = some (cmdByte c 3) := rfl
  have h2 : getCmdByte c "ADD_MSB" = some (cmdByte c 2) := rfl
  have h4 : getCmdByte c "WR" = some (cmdByte c 4) := rfl
  have h5 : getCmdByte c "RD" = some (cmdByte c 5) := rfl
  have hne34 : cmdByte c 3 ≠ cmdByte c 4 :=
    cmdByte_ne c (by decide) (by decide) (by decide)
  have hne24 : cmdByte c 2 ≠ cmdByte c 4 :=
    cmdByte_ne c (by decide) (by decide) (by decide)
  rw [writeSim_ADD_MSB, writeSim_ADD_LSB]
  refine ⟨?_, ?_, ?_, ?_, ?_, ?_⟩ <;>
    simp [writeSim, readSim, h3, h2, h4, h5, hne34, hne24,
      initSim, Res.state, Res.error?]

/-! ## Claim C1: the addresses issued by readMon -/

/-- C1: evaluating `readMon` on a tracing transport at chip id 1 — the
first two transactions are the ADD_MSB with byte 0x00 and an ADD_LSB with
byte `0x40 | 0` (the DAC base column), because `readMon` passes `"DAC"`
to `rwReg16w`; no transaction of the whole run carries the Mon base
column `0xE0 | i` for any offset `i < 15`, contradicting the claimed
`(0b1110_0000 & 0xF0) | i` addressing. -/
theorem C1_readMon_addresses_DAC_block :
    (readMon traceT 1 []).state.take 2 =
      [Txn.wr (cmdByte 1 2) [0x00], Txn.wr (cmdByte 1 3) [0x40 ||| 0]]
    ∧ (∀ i < 15, ((readMon traceT 1 []).state.contains
        (Txn.wr (cmdByte 1 3) [0xE0 ||| i])) = false)
    ∧ (readMon traceT 1 []).error? = none := by decide

/-! ## Claim C5: size validation before transacting -/

/-- Unfolding of `rwMFE`: the MFE address-table lookup always succeeds,
leaving the 64-region loop followed by `return len(buf)`. -/
theorem rwMFE_run {σ : Type} (T : Transport σ) (c : Nat) (buf : List Nat)
    (mode : Char) (st : σ) :
    rwMFE T c buf mode st =
      (match mfeRegionGo T c mode 0x80 0x00 buf 0 64 st with
       | Res.err s e => Res.err s e
       | Res.ok s buf2 => Res.ok s (RwRet.done buf2 buf2.length)) := rfl

/-- The MFE inner frame loop never decreases the transaction count of the
counting transport stub, however it exits. -/
theorem mfeFrameGo_countT_mono (c : Nat) (mode : Char) (l0 : Nat) :
    ∀ (r region f : Nat) (buf : List Nat) (n : Nat),
      n ≤ (mfeFrameGo countT c mode l0 buf region f r n).state := by
  intro r
  induction r with
  | zero => intro region f buf n; exact le_rfl
  | succ r ih =>
    intro region f buf n
    simp only [mfeFrameGo, withCmd, getCmdByte_ADD_LSB, getCmdByte_RD,
      getCmdByte_WR, countT]
    split
    · split
      · simp only [Res.state]
        omega
      · exact le_trans (by omega) (ih region (f + 1) _ (n + 1 + 1))
    · split
      · simp only [Res.state]
        omega
      · exact le_trans (by omega) (ih region (f + 1) buf (n + 1 + 1))

/-- The MFE outer region loop never decreases the transaction count of
the counting transport stub. -/
theorem mfeRegionGo_countT_mono (c : Nat) (mode : Char) (m0 l0 : Nat) :
    ∀ (R g : Nat) (buf : List Nat) (n : Nat),
      n ≤ (mfeRegionGo countT c mode m0 l0 buf g R n).state := by
  intro R
  induction R with
  | zero => intro g buf n; exact le_rfl
  | succ R ih =>
    intro g buf n
    simp only [mfeRegionGo, withCmd, getCmdByte_ADD_MSB, countT]
    split
    · next s e heq =>
      have h := mfeFrameGo_countT_mono c mode l0 8 g 0 buf (n + 1)
      simp only [countT] at h
      rw [heq] at h
      simp only [Res.state] at h ⊢
      omega
    · next s buf2 heq =>
      have h := mfeFrameGo_countT_mono c mode l0 8 g 0 buf (n + 1)
      simp only [countT] at h
      rw [heq] at h
      simp only [Res.state] at h
      exact le_trans (by omega) (ih (g + 1) buf2 s)

/-- With at least one region left, the MFE loop issues at least one
transaction (the region's ADD_MSB) whatever the buffer. -/
theorem mfeRegionGo_countT_pos (c : Nat) (mode : Char) (m0 l0 : Nat)
    (R g : Nat) (buf : List Nat) (n : Nat) :
    n + 1 ≤ (mfeRegionGo countT c mode m0 l0 buf g (R + 1) n).state := by
  simp only [mfeRegionGo, withCmd, getCmdByte_ADD_MSB, countT]
  split
  · next s e heq =>
    have h := mfeFrameGo_countT_mono c mode l0 8 g 0 buf (n + 1)
    simp only [countT] at h
    rw [heq] at h
    simp only [Res.state] at h ⊢
    omega
  · next s buf2 heq =>
    have h := mfeFrameGo_countT_mono c mode l0 8 g 0 buf (n + 1)
    simp only [countT] at h
    rw [heq] at h
    simp only [Res.state] at h
    exact le_trans h (mfeRegionGo_countT_mono c mode m0 l0 R (g + 1) buf2 s)

/-- C5: on every transport and every start state, `rwReg16w` with a
buffer shorter than the block size returns `False` for GenConf (< 16) and
DAC/Mon (< 15) without issuing any transaction (the transport state is
returned untouched); `rwMFE` performs no size validation: whatever the
buffer (in particular one byte short), no size-check `False` is ever
returned — the only failure it can hit is the buffer `IndexError` during
the transfer — and transactions are issued (on the counting transport
stub the count strictly grows) before any such failure. -/
theorem C5_size_check_before_transactions {σ : Type} (T : Transport σ)
    (st : σ) (c : Nat) (mode : Char) (buf : List Nat) :
    (buf.length < 16 → rwReg16w T c "GenConf" (some buf) mode st = .ok st .fail)
    ∧ (buf.length < 15 → rwReg16w T c "DAC" (some buf) mode st = .ok st .fail)
    ∧ (buf.length < 15 → rwReg16w T c "Mon" (some buf) mode st = .ok st .fail)
    ∧ (rwMFE T c buf mode st).value? ≠ some .fail
    ∧ (∀ n : Nat, n + 1 ≤ (rwMFE countT c buf mode n).state) := by
  refine ⟨fun h => ?_, fun h => ?_, fun h => ?_, ?_, fun n => ?_⟩
  · simp [rwReg16w, h]
  · simp [rwReg16w, h]
  · simp [rwReg16w, h]
  · rw [rwMFE_run]
    split
    · simp [Res.value?]
    · simp [Res.value?]
  · rw [rwMFE_run]
    have hp := mfeRegionGo_countT_pos c mode 0x80 0x00 63 0 buf n
    have e64 : (63 : Nat) + 1 = 64 := rfl
    rw [e64] at hp
    split
    · next s e heq =>
      rw [heq] at hp
      simp only [Res.state] at hp ⊢
      omega
    · next s buf2 heq =>
      rw [heq] at hp
      simp only [Res.state] at hp ⊢
      omega

/-- Witness for C5: a 15-byte GenConf buffer and a 14-byte DAC buffer on
the counting transport return `False` with the transaction count still
zero, and the MFE facts hold. -/
theorem C5_size_check_before_transactions_witness :
    rwReg16w countT 1 "GenConf" (some (List.replicate 15 0)) 'r' 0 = .ok 0 .fail
    ∧ rwReg16w countT 1 "DAC" (some (List.replicate 14 0)) 'w' 0 = .ok 0 .fail
    ∧ rwReg16w countT 1 "Mon" (some (List.replicate 14 0)) 'r' 0 = .ok 0 .fail :=
  ⟨(C5_size_check_before_transactions countT 0 1 'r' (List.replicate 15 0)).1
      (by decide),
   (C5_size_check_before_transactions countT 0 1 'w' (List.replicate 14 0)).2.1
      (by decide),
   (C5_size_check_before_transactions countT 0 1 'r' (List.replicate 14 0)).2.2.1
      (by decide)⟩

/-! ## Claim C4: simulated-device round trips -/

/-- Running the write-mode offset loop of `rwReg16w` against the
simulated device stores each buffer byte as a singleton cell at its
block address and touches nothing else. -/
theorem rwLoopGo_write_sim (c base M : Nat) (hM : M < 256) (vals : Nat → Nat) :
    ∀ (r i : Nat) (st : SimState) (buf : List Nat),
      st.msb = some M →
      i + r ≤ buf.length →
      (∀ j, i ≤ j → j < i + r → buf[j]? = some (vals j)) →
      (∀ j, i ≤ j → j < i + r → (base &&& 0xF0) ||| j < 256) →
      (∀ j k, i ≤ j → j < i + r → i ≤ k → k < i + r →
        (base &&& 0xF0) ||| j = (base &&& 0xF0) ||| k → j = k) →
      ∃ st' : SimState,
        rwLoopGo (simT c) c base 'w' buf i r st = .ok st' buf
        ∧ st'.msb = some M
        ∧ (∀ j, i ≤ j → j < i + r →
            st'.regs M ((base &&& 0xF0) ||| j) = [vals j])
        ∧ (∀ a b, (a ≠ M ∨ ∀ j, i ≤ j → j < i + r → b ≠ (base &&& 0xF0) ||| j) →
            st'.regs a b = st.regs a b) := by
  intro r
  induction r with
  | zero =>
    intro i st buf hmsb _ _ _ _
    exact ⟨st, rfl, hmsb, by omega, fun a b _ => rfl⟩
  | succ r ih =>
    intro i st buf hmsb hlen hbuf hbound hinj
    have hwb : (base &&& 0xF0) ||| i < 256 := hbound i le_rfl (by omega)
    have hbi : buf[i]? = some (vals i) := hbuf i le_rfl (by omega)
    have hstep :
        rwLoopGo (simT c) c base 'w' buf i (r + 1) st =
          rwLoopGo (simT c) c base 'w' buf (i + 1) r
            { st with
              regs := updateCell st.regs M ((base &&& 0xF0) ||| i) [vals i],
              lsb := some ((base &&& 0xF0) ||| i) } := by
      simp only [rwLoopGo, withCmd, getCmdByte_ADD_LSB, getCmdByte_WR, simT,
        writeSim_ADD_LSB, reduceIte]
      simp only [hbi,
        writeSim_WR c (vals i) { st with lsb := some ((base &&& 0xF0) ||| i) }
          hmsb rfl hM hwb]
      rw [if_neg (by decide : ¬(('w' : Char) = 'r'))]
    obtain ⟨st', heq, hmsb', hcells, hframe⟩ :=
      ih (i + 1)
        { st with
          regs := updateCell st.regs M ((base &&& 0xF0) ||| i) [vals i],
          lsb := some ((base &&& 0xF0) ||| i) } buf
        hmsb (by omega)
        (fun j h1 h2 => hbuf j (by omega) (by omega))
        (fun j h1 h2 => hbound j (by omega) (by omega))
        (fun j k h1 h2 h3 h4 h5 => hinj j k (by omega) (by omega) (by omega) (by omega) h5)
    refine ⟨st', hstep.trans heq, hmsb', ?_, ?_⟩
    · intro j h1 h2
      rcases Nat.eq_or_lt_of_le h1 with h | h
      · subst h
        have hout : ∀ j', i + 1 ≤ j' → j' < i + 1 + r →
            (base &&& 0xF0) ||| i ≠ (base &&& 0xF0) ||| j' := by
          intro j' hj1 hj2 habs
          have := hinj i j' le_rfl (by omega) (by omega) (by omega) habs
          omega
        rw [hframe M ((base &&& 0xF0) ||| i) (Or.inr hout)]
        exact updateCell_self ..
      · have := hcells j (by omega) (by omega)
        exact this
    · intro a b hab
      have hab' : a ≠ M ∨ ∀ j, i + 1 ≤ j → j < i + 1 + r →
          b ≠ (base &&& 0xF0) ||| j := by
        rcases hab with h | h
        · exact Or.inl h
        · exact Or.inr (fun j h1 h2 => h j (by omega) (by omega))
      rw [hframe a b hab']
      refine updateCell_other _ _ _ _ ?_
      rcases hab with h | h
      · exact Or.inl h
      · exact Or.inr (h i le_rfl (by omega))

/-- Running the read-mode offset loop of `rwReg16w` against the simulated
device returns the first byte of each addressed cell into the buffer and
leaves the register grid untouched. -/
theorem rwLoopGo_read_sim (c base M : Nat) (hM : M < 256) (vals : Nat → Nat) :
    ∀ (r i : Nat) (st : SimState) (buf : List Nat),
      st.msb = some M →
      i + r ≤ buf.length →
      (∀ j, i ≤ j → j < i + r → (base &&& 0xF0) ||| j < 256) →
      (∀ j, i ≤ j → j < i + r →
        (st.regs M ((base &&& 0xF0) ||| j)).head? = some (vals j)) →
      ∃ (st' : SimState) (buf' : List Nat),
        rwLoopGo (simT c) c base 'r' buf i r st = .ok st' buf'
        ∧ st'.regs = st.regs ∧ st'.msb = some M
        ∧ buf'.length = buf.length
        ∧ (∀ j : Nat, buf'[j]? =
            if i ≤ j ∧ j < i + r then some (vals j) else buf[j]?) := by
  intro r
  induction r with
  | zero =>
    intro i st buf hmsb _ _ _
    refine ⟨st, buf, rfl, rfl, hmsb, rfl, fun j => ?_⟩
    rw [if_neg (by omega)]
  | succ r ih =>
    intro i st buf hmsb hlen hbound hcells
    have hwb : (base &&& 0xF0) ||| i < 256 := hbound i le_rfl (by omega)
    have hi : i < buf.length := by omega
    have hstep :
        rwLoopGo (simT c) c base 'r' buf i (r + 1) st =
          rwLoopGo (simT c) c base 'r' (buf.set i (vals i)) (i + 1) r
            { st with lsb := some ((base &&& 0xF0) ||| i) } := by
      simp only [rwLoopGo, withCmd, getCmdByte_ADD_LSB, getCmdByte_RD, simT,
        writeSim_ADD_LSB, reduceIte]
      rw [readSim_RD c { st with lsb := some ((base &&& 0xF0) ||| i) }
        hmsb rfl hM hwb (hcells i le_rfl (by omega))]
      simp only [setIdx, hi, reduceIte]
    obtain ⟨st', buf', heq, hregs, hmsb', hlen', hvals⟩ :=
      ih (i + 1) { st with lsb := some ((base &&& 0xF0) ||| i) } (buf.set i (vals i))
        hmsb (by simp [List.length_set]; omega)
        (fun j h1 h2 => hbound j (by omega) (by omega))
        (fun j h1 h2 => hcells j (by omega) (by omega))
    refine ⟨st', buf', hstep.trans heq, hregs, hmsb',
      by rw [hlen', List.length_set], fun j => ?_⟩
    have h' := hvals j
    by_cases hji : j = i
    · subst hji
      rw [h', if_neg (by omega), if_pos (by omega)]
      exact List.getElem?_set_eq_of_lt _ hi
    · rw [h']
      by_cases hin : i + 1 ≤ j ∧ j < i + 1 + r
      · rw [if_pos hin, if_pos (by omega)]
      · rw [if_neg hin, if_neg (by omega)]
        exact List.getElem?_set_ne (fun h => hji h.symm)

/-- In-range list indexing agrees with `getD`. -/
theorem getElem?_eq_some_getD (l : List Nat) (j : Nat) (h : j < l.length) :
    l[j]? = some (l.getD j 0) := by
  rw [List.getD_eq_getElem?_getD, List.getElem?_eq_getElem h]
  rfl

/-- Unfolding of `rwReg16w` once all preconditions pass: one ADD_MSB
transaction with the block's MSB byte, then the offset loop. -/
theorem rwReg16w_run {σ : Type} (T : Transport σ) (c : Nat) (st : σ)
    (buf : List Nat) (mode : Char) (type : String) (m0 l0 : Nat)
    (hA : ADDRS type = some (m0, l0))
    (ht : ¬(type ≠ "GenConf" ∧ type ≠ "DAC" ∧ type ≠ "Mon"))
    (h2 : ¬(type = "GenConf" ∧ buf.length < 16))
    (h3 : ¬((type = "DAC" ∨ type = "Mon") ∧ buf.length < 15)) :
    rwReg16w T c type (some buf) mode st =
      (match T.write st (cmdByte c 2) [m0] with
       | .err s e => .err s e
       | .ok s _ =>
         match rwLoopGo T c l0 mode buf 0 buf.length s with
         | .err s2 e => .err s2 e
         | .ok s2 buf2 => .ok s2 (.done buf2 buf2.length)) := by
  simp only [rwReg16w, if_neg ht, if_neg h2, if_neg h3, hA, withCmd,
    getCmdByte_ADD_MSB]

/-- Round trip of a 16-byte GenConf buffer through the simulated device:
writing stores every byte, and an immediate read-back with a fresh zero
buffer returns the written bytes. -/
theorem rwReg16w_GenConf_roundtrip (c : Nat) (st : SimState) (w : List Nat)
    (hw : w.length = 16) :
    ∃ st1 st2 : SimState,
      rwReg16w (simT c) c "GenConf" (some w) 'w' st = .ok st1 (.done w 16)
      ∧ rwReg16w (simT c) c "GenConf" (some (List.replicate 16 0)) 'r' st1
          = .ok st2 (.done w 16) := by
  have haddrB : ∀ j < 16, (0x20 &&& 0xF0) ||| j < 256 := by decide
  have haddrI : ∀ j < 16, ∀ k < 16,
      (0x20 &&& 0xF0) ||| j = (0x20 &&& 0xF0) ||| k → j = k := by decide
  obtain ⟨st1, heqW, hmsb1, hcells, _⟩ :=
    rwLoopGo_write_sim c 0x20 0x00 (by omega) (fun j => w.getD j 0) 16 0
      { st with msb := some 0x00 } w rfl (by omega)
      (fun j _ h2 => getElem?_eq_some_getD w j (by omega))
      (fun j _ h2 => haddrB j (by omega))
      (fun j k _ h2 _ h4 h5 => haddrI j (by omega) k (by omega) h5)
  obtain ⟨st2, buf', heqR, _, _, hlen', hvals⟩ :=
    rwLoopGo_read_sim c 0x20 0x00 (by omega) (fun j => w.getD j 0) 16 0
      { st1 with msb := some 0x00 } (List.replicate 16 0) rfl (by simp)
      (fun j _ h2 => haddrB j (by omega))
      (fun j _ h2 => by rw [hcells j (by omega) (by omega)]; rfl)
  have hbw : buf' = w := by
    refine List.ext_getElem? fun j => ?_
    have h' := hvals j
    by_cases hj : j < 16
    · rw [h', if_pos (by omega), getElem?_eq_some_getD w j (by omega)]
    · rw [h', if_neg (by omega), List.getElem?_eq_none (by simp; omega),
        List.getElem?_eq_none (by omega : w.length ≤ j)]
  refine ⟨st1, st2, ?_, ?_⟩
  · rw [rwReg16w_run (simT c) c st w 'w' "GenConf" 0x00 0x20 rfl
      (by decide) (by rw [hw]; decide) (by rw [hw]; decide)]
    simp only [simT]
    rw [writeSim_ADD_MSB]
    simp only [simT] at heqW
    simp only [hw, heqW]
  · rw [rwReg16w_run (simT c) c st1 (List.replicate 16 0) 'r' "GenConf" 0x00 0x20 rfl
      (by decide) (by simp) (by simp)]
    simp only [simT]
    rw [writeSim_ADD_MSB]
    simp only [simT] at heqR
    simp only [List.length_replicate, heqR, hbw, hw]

/-- Round trip of a 15-byte DAC buffer through the simulated device. -/
theorem rwReg16w_DAC_roundtrip (c : Nat) (st : SimState) (w : List Nat)
    (hw : w.length = 15) :
    ∃ st1 st2 : SimState,
      rwReg16w (simT c) c "DAC" (some w) 'w' st = .ok st1 (.done w 15)
      ∧ rwReg16w (simT c) c "DAC" (some (List.replicate 15 0)) 'r' st1
          = .ok st2 (.done w 15) := by
  have haddrB : ∀ j < 15, (0x40 &&& 0xF0) ||| j < 256 := by decide
  have haddrI : ∀ j < 15, ∀ k < 15,
      (0x40 &&& 0xF0) ||| j = (0x40 &&& 0xF0) ||| k → j = k := by decide
  obtain ⟨st1, heqW, hmsb1, hcells, _⟩ :=
    rwLoopGo_write_sim c 0x40 0x00 (by omega) (fun j => w.getD j 0) 15 0
      { st with msb := some 0x00 } w rfl (by omega)
      (fun j _ h2 => getElem?_eq_some_getD w j (by omega))
      (fun j _ h2 => haddrB j (by omega))
      (fun j k _ h2 _ h4 h5 => haddrI j (by omega) k (by omega) h5)
  obtain ⟨st2, buf', heqR, _, _, hlen', hvals⟩ :=
    rwLoopGo_read_sim c 0x40 0x00 (by omega) (fun j => w.getD j 0) 15 0
      { st1 with msb := some 0x00 } (List.replicate 15 0) rfl (by simp)
      (fun j _ h2 => haddrB j (by omega))
      (fun j _ h2 => by rw [hcells j (by omega) (by omega)]; rfl)
  have hbw : buf' = w := by
    refine List.ext_getElem? fun j => ?_
    have h' := hvals j
    by_cases hj : j < 15
    · rw [h', if_pos (by omega), getElem?_eq_some_getD w j (by omega)]
    · rw [h', if_neg (by omega), List.getElem?_eq_none (by simp; omega),
        List.getElem?_eq_none (by omega : w.length ≤ j)]
  refine ⟨st1, st2, ?_, ?_⟩
  · rw [rwReg16w_run (simT c) c st w 'w' "DAC" 0x00 0x40 rfl
      (by decide) (fun h => absurd h.1 (by decide)) (by rw [hw]; decide)]
    simp only [simT]
    rw [writeSim_ADD_MSB]
    simp only [simT] at heqW
    simp only [hw, heqW]
  · rw [rwReg16w_run (simT c) c st1 (List.replicate 15 0) 'r' "DAC" 0x00 0x40 rfl
      (by decide) (fun h => absurd h.1 (by decide)) (by simp)]
    simp only [simT]
    rw [writeSim_ADD_MSB]
    simp only [simT] at heqR
    simp only [List.length_replicate, heqR, hbw, hw]

/-- Running the write-mode offset loop of `rwRoTstConf` against the
simulated device stores each buffer byte at its incrementing offset. -/
theorem roTstGo_write_sim (c M : Nat) (hM : M < 256) (vals : Nat → Nat) :
    ∀ (r off i : Nat) (st : SimState) (buf : List Nat),
      st.msb = some M →
      i + r ≤ buf.length →
      (∀ k, k < r → buf[i + k]? = some (vals (i + k))) →
      off + r ≤ 256 →
      ∃ st' : SimState,
        roTstGo (simT c) c 'w' buf off i r st = .ok st' buf
        ∧ st'.msb = some M
        ∧ (∀ k, k < r → st'.regs M (off + k) = [vals (i + k)])
        ∧ (∀ a b, (a ≠ M ∨ ∀ k, k < r → b ≠ off + k) →
            st'.regs a b = st.regs a b) := by
  intro r
  induction r with
  | zero =>
    intro off i st buf hmsb _ _ _
    exact ⟨st, rfl, hmsb, by omega, fun a b _ => rfl⟩
  | succ r ih =>
    intro off i st buf hmsb hlen hbuf hoff
    have hbi : buf[i]? = some (vals i) := by
      have := hbuf 0 (by omega)
      simpa using this
    have hstep :
        roTstGo (simT c) c 'w' buf off i (r + 1) st =
          roTstGo (simT c) c 'w' buf (off + 1) (i + 1) r
            { st with
              regs := updateCell st.regs M off [vals i],
              lsb := some off } := by
      simp only [roTstGo, withCmd, getCmdByte_ADD_LSB, getCmdByte_WR, simT,
        writeSim_ADD_LSB]
      simp only [hbi,
        writeSim_WR c (vals i) { st with lsb := some off }
          hmsb rfl hM (by omega)]
      rw [if_neg (by decide : ¬(('w' : Char) = 'r'))]
    obtain ⟨st', heq, hmsb', hcells, hframe⟩ :=
      ih (off + 1) (i + 1)
        { st with regs := updateCell st.regs M off [vals i], lsb := some off } buf
        hmsb (by omega)
        (fun k hk => by
          have := hbuf (k + 1) (by omega)
          have harith : i + (k + 1) = i + 1 + k := by omega
          rwa [harith] at this)
        (by omega)
    refine ⟨st', hstep.trans heq, hmsb', ?_, ?_⟩
    · intro k hk
      match k with
      | 0 =>
        have hout : ∀ k', k' < r → off + 0 ≠ off + 1 + k' := by omega
        rw [hframe M (off + 0) (Or.inr hout), Nat.add_zero]
        rw [Nat.add_zero]
        exact updateCell_self ..
      | k' + 1 =>
        have h1 : off + (k' + 1) = off + 1 + k' := by omega
        have h2 : i + (k' + 1) = i + 1 + k' := by omega
        rw [h1, h2]
        exact hcells k' (by omega)
    · intro a b hab
      have hab' : a ≠ M ∨ ∀ k, k < r → b ≠ off + 1 + k := by
        rcases hab with h | h
        · exact Or.inl h
        · refine Or.inr fun k hk => ?_
          have := h (k + 1) (by omega)
          omega
      rw [hframe a b hab']
      refine updateCell_other _ _ _ _ ?_
      rcases hab with h | h
      · exact Or.inl h
      · refine Or.inr ?_
        have := h 0 (by omega)
        omega

/-- Running the read-mode offset loop of `rwRoTstConf` against the
simulated device fills the buffer from the addressed cells and leaves the
register grid untouched. -/
theorem roTstGo_read_sim (c M : Nat) (hM : M < 256) (vals : Nat → Nat) :
    ∀ (r off i : Nat) (st : SimState) (buf : List Nat),
      st.msb = some M →
      i + r ≤ buf.length →
      off + r ≤ 256 →
      (∀ k, k < r → (st.regs M (off + k)).head? = some (vals (i + k))) →
      ∃ (st' : SimState) (buf' : List Nat),
        roTstGo (simT c) c 'r' buf off i r st = .ok st' buf'
        ∧ st'.regs = st.regs ∧ st'.msb = some M
        ∧ buf'.length = buf.length
        ∧ (∀ j : Nat, buf'[j]? =
            if i ≤ j ∧ j < i + r then some (vals j) else buf[j]?) := by
  intro r
  induction r with
  | zero =>
    intro off i st buf hmsb _ _ _
    refine ⟨st, buf, rfl, rfl, hmsb, rfl, fun j => ?_⟩
    rw [if_neg (by omega)]
  | succ r ih =>
    intro off i st buf hmsb hlen hoff hcells
    have hi : i < buf.length := by omega
    have hci : (st.regs M off).head? = some (vals i) := by
      have := hcells 0 (by omega)
      simpa using this
    have hstep :
        roTstGo (simT c) c 'r' buf off i (r + 1) st =
          roTstGo (simT c) c 'r' (buf.set i (vals i)) (off + 1) (i + 1) r
            { st with lsb := some off } := by
      simp only [roTstGo, withCmd, getCmdByte_ADD_LSB, getCmdByte_RD, simT,
        writeSim_ADD_LSB, reduceIte]
      rw [readSim_RD c { st with lsb := some off }
        hmsb rfl hM (by omega) hci]
      simp only [setIdx, hi, reduceIte]
    obtain ⟨st', buf', heq, hregs, hmsb', hlen', hvals⟩ :=
      ih (off + 1) (i + 1) { st with lsb := some off } (buf.set i (vals i))
        hmsb (by simp [List.length_set]; omega) (by omega)
        (fun k hk => by
          have := hcells (k + 1) (by omega)
          have h1 : off + (k + 1) = off + 1 + k := by omega
          have h2 : i + (k + 1) = i + 1 + k := by omega
          rwa [h1, h2] at this)
    refine ⟨st', buf', hstep.trans heq, hregs, hmsb',
      by rw [hlen', List.length_set], fun j => ?_⟩
    have h' := hvals j
    by_cases hji : j = i
    · subst hji
      rw [h', if_neg (by omega), if_pos (by omega)]
      exact List.getElem?_set_eq_of_lt _ hi
    · rw [h']
      by_cases hin : i + 1 ≤ j ∧ j < i + 1 + r
      · rw [if_pos hin, if_pos (by omega)]
      · rw [if_neg hin, if_neg (by omega)]
        exact List.getElem?_set_ne (fun h => hji h.symm)

/-- Round trip of a 20-byte RoTstConf buffer through the simulated
device. -/
theorem rwRoTstConf_roundtrip (c : Nat) (st : SimState) (w : List Nat)
    (hw : w.length = 20) :
    ∃ st1 st2 : SimState,
      rwRoTstConf (simT c) c w 'w' st = .ok st1 (.done w 20)
      ∧ rwRoTstConf (simT c) c (List.replicate 20 0) 'r' st1
          = .ok st2 (.done w 20) := by
  obtain ⟨st1, heqW, hmsb1, hcells, _⟩ :=
    roTstGo_write_sim c 0x80 (by omega) (fun j => w.getD j 0) 20 0x40 0
      { st with msb := some 0x80 } w rfl (by omega)
      (fun k hk => by simpa using getElem?_eq_some_getD w k (by omega))
      (by omega)
  obtain ⟨st2, buf', heqR, _, _, hlen', hvals⟩ :=
    roTstGo_read_sim c 0x80 (by omega) (fun j => w.getD j 0) 20 0x40 0
      { st1 with msb := some 0x80 } (List.replicate 20 0) rfl (by simp)
      (by omega)
      (fun k hk => by rw [hcells k (by omega)]; rfl)
  have hbw : buf' = w := by
    refine List.ext_getElem? fun j => ?_
    have h' := hvals j
    by_cases hj : j < 20
    · rw [h', if_pos (by omega), getElem?_eq_some_getD w j (by omega)]
    · rw [h', if_neg (by omega), List.getElem?_eq_none (by simp; omega),
        List.getElem?_eq_none (by omega : w.length ≤ j)]
  have hA : ADDRS "RoTstConf" = some (0x80, 0x40) := rfl
  refine ⟨st1, st2, ?_, ?_⟩
  · simp only [rwRoTstConf, hA, withCmd, getCmdByte_ADD_MSB, simT]
    rw [writeSim_ADD_MSB]
    simp only [simT] at heqW
    simp only [heqW, hw]
  · simp only [rwRoTstConf, hA, withCmd, getCmdByte_ADD_MSB, simT]
    rw [writeSim_ADD_MSB]
    simp only [simT] at heqR
    simp only [heqR, hbw, hw]

/-- The frame byte sent by the MFE inner loop is the frame number for
frames below 8 (the LSB base of the MFE block is 0). -/
theorem mfe_frame_byte : ∀ f < 8, (0 &&& 0xF8) ||| (f &&& 0x7) = f := by decide

/-- The region byte sent by the MFE outer loop is `128 + region` for
regions below 64. -/
theorem mfe_region_byte : ∀ g < 64, (0x80 &&& 0x80) ||| (g &&& 0x3F) = 128 + g := by
  decide

/-- Write-mode MFE inner frame loop against the simulated device: each
frame byte of the current region is stored at cell `(M, frame)`. -/
theorem mfeFrameGo_write_sim (c M region : Nat) (hM : M < 256) (vals : Nat → Nat) :
    ∀ (r f : Nat) (st : SimState) (buf : List Nat),
      st.msb = some M →
      f + r ≤ 8 →
      region * 8 + f + r ≤ buf.length →
      (∀ φ, f ≤ φ → φ < f + r →
        buf[region * 8 + φ]? = some (vals (region * 8 + φ))) →
      ∃ st' : SimState,
        mfeFrameGo (simT c) c 'w' 0 buf region f r st = .ok st' buf
        ∧ st'.msb = some M
        ∧ (∀ φ, f ≤ φ → φ < f + r → st'.regs M φ = [vals (region * 8 + φ)])
        ∧ (∀ a b, (a ≠ M ∨ ∀ φ, f ≤ φ → φ < f + r → b ≠ φ) →
            st'.regs a b = st.regs a b) := by
  intro r
  induction r with
  | zero =>
    intro f st buf hmsb _ _ _
    exact ⟨st, rfl, hmsb, by omega, fun a b _ => rfl⟩
  | succ r ih =>
    intro f st buf hmsb hf8 hlen hbuf
    have hfb : (0 &&& 0xF8) ||| (f &&& 0x7) = f := mfe_frame_byte f (by omega)
    have hbi : buf[region * 8 + f]? = some (vals (region * 8 + f)) :=
      hbuf f le_rfl (by omega)
    have hstep :
        mfeFrameGo (simT c) c 'w' 0 buf region f (r + 1) st =
          mfeFrameGo (simT c) c 'w' 0 buf region (f + 1) r
            { st with
              regs := updateCell st.regs M f [vals (region * 8 + f)],
              lsb := some f } := by
      simp only [mfeFrameGo, withCmd, getCmdByte_ADD_LSB, getCmdByte_WR, simT,
        writeSim_ADD_LSB, hfb]
      simp only [hbi,
        writeSim_WR c (vals (region * 8 + f)) { st with lsb := some f }
          hmsb rfl hM (by omega)]
      rw [if_neg (by decide : ¬(('w' : Char) = 'r'))]
    obtain ⟨st', heq, hmsb', hcells, hframe⟩ :=
      ih (f + 1)
        { st with
          regs := updateCell st.regs M f [vals (region * 8 + f)],
          lsb := some f } buf
        hmsb (by omega) (by omega)
        (fun φ h1 h2 => hbuf φ (by omega) (by omega))
    refine ⟨st', hstep.trans heq, hmsb', ?_, ?_⟩
    · intro φ h1 h2
      rcases Nat.eq_or_lt_of_le h1 with h | h
      · subst h
        have hout : ∀ φ', f + 1 ≤ φ' → φ' < f + 1 + r → f ≠ φ' := by omega
        rw [hframe M f (Or.inr hout)]
        exact updateCell_self ..
      · exact hcells φ (by omega) (by omega)
    · intro a b hab
      have hab' : a ≠ M ∨ ∀ φ, f + 1 ≤ φ → φ < f + 1 + r → b ≠ φ := by
        rcases hab with h | h
        · exact Or.inl h
        · exact Or.inr (fun φ h1 h2 => h φ (by omega) (by omega))
      rw [hframe a b hab']
      refine updateCell_other _ _ _ _ ?_
      rcases hab with h | h
      · exact Or.inl h
      · exact Or.inr (h f le_rfl (by omega))

/-- Read-mode MFE inner frame loop against the simulated device: the
current region's slice of the buffer is filled from cells `(M, frame)`
and the register grid is untouched. -/
theorem mfeFrameGo_read_sim (c M region : Nat) (hM : M < 256) (vals : Nat → Nat) :
    ∀ (r f : Nat) (st : SimState) (buf : List Nat),
      st.msb = some M →
      f + r ≤ 8 →
      region * 8 + f + r ≤ buf.length →
      (∀ φ, f ≤ φ → φ < f + r →
        (st.regs M φ).head? = some (vals (region * 8 + φ))) →
      ∃ (st' : SimState) (buf' : List Nat),
        mfeFrameGo (simT c) c 'r' 0 buf region f r st = .ok st' buf'
        ∧ st'.regs = st.regs ∧ st'.msb = some M
        ∧ buf'.length = buf.length
        ∧ (∀ j : Nat, buf'[j]? =
            if region * 8 + f ≤ j ∧ j < region * 8 + f + r then some (vals j)
            else buf[j]?) := by
  intro r
  induction r with
  | zero =>
    intro f st buf hmsb _ _ _
    refine ⟨st, buf, rfl, rfl, hmsb, rfl, fun j => ?_⟩
    rw [if_neg (by omega)]
  | succ r ih =>
    intro f st buf hmsb hf8 hlen hcells
    have hfb : (0 &&& 0xF8) ||| (f &&& 0x7) = f := mfe_frame_byte f (by omega)
    have hi : region * 8 + f < buf.length := by omega
    have hci : (st.regs M f).head? = some (vals (region * 8 + f)) :=
      hcells f le_rfl (by omega)
    have hstep :
        mfeFrameGo (simT c) c 'r' 0 buf region f (r + 1) st =
          mfeFrameGo (simT c) c 'r' 0
            (buf.set (region * 8 + f) (vals (region * 8 + f))) region (f + 1) r
            { st with lsb := some f } := by
      simp only [mfeFrameGo, withCmd, getCmdByte_ADD_LSB, getCmdByte_RD, simT,
        writeSim_ADD_LSB, hfb, reduceIte]
      rw [readSim_RD c { st with lsb := some f } hmsb rfl hM (by omega) hci]
      simp only [setIdx, hi, reduceIte]
    obtain ⟨st', buf', heq, hregs, hmsb', hlen', hvals⟩ :=
      ih (f + 1) { st with lsb := some f }
        (buf.set (region * 8 + f) (vals (region * 8 + f)))
        hmsb (by omega) (by simp [List.length_set]; omega)
        (fun φ h1 h2 => hcells φ (by omega) (by omega))
    refine ⟨st', buf', hstep.trans heq, hregs, hmsb',
      by rw [hlen', List.length_set], fun j => ?_⟩
    have h' := hvals j
    by_cases hji : j = region * 8 + f
    · subst hji
      rw [h', if_neg (by omega), if_pos (by omega)]
      exact List.getElem?_set_eq_of_lt _ hi
    · rw [h']
      by_cases hin : region * 8 + (f + 1) ≤ j ∧ j < region * 8 + (f + 1) + r
      · rw [if_pos hin, if_pos (by omega)]
      · rw [if_neg hin, if_neg (by omega)]
        exact List.getElem?_set_ne (fun h => hji h.symm)

/-- Write-mode MFE outer region loop against the simulated device: byte
`region*8 + frame` of the buffer ends up in cell `(128 + region, frame)`;
rows outside the visited regions are untouched. -/
theorem mfeRegionGo_write_sim (c : Nat) (vals : Nat → Nat) :
    ∀ (R g : Nat) (st : SimState) (buf : List Nat),
      g + R ≤ 64 →
      (g + R) * 8 ≤ buf.length →
      (∀ j, g * 8 ≤ j → j < (g + R) * 8 → buf[j]? = some (vals j)) →
      ∃ st' : SimState,
        mfeRegionGo (simT c) c 'w' 0x80 0 buf g R st = .ok st' buf
        ∧ (∀ ρ φ, g ≤ ρ → ρ < g + R → φ < 8 →
            st'.regs (128 + ρ) φ = [vals (ρ * 8 + φ)])
        ∧ (∀ a b, (∀ ρ, g ≤ ρ → ρ < g + R → a ≠ 128 + ρ) →
            st'.regs a b = st.regs a b) := by
  intro R
  induction R with
  | zero =>
    intro g st buf _ _ _
    exact ⟨st, rfl, by omega, fun a b _ => rfl⟩
  | succ R ih =>
    intro g st buf hg hlen hbuf
    have hrb : (0x80 &&& 0x80) ||| (g &&& 0x3F) = 128 + g :=
      mfe_region_byte g (by omega)
    obtain ⟨st2, heqI, hmsb2, hcellsI, hframeI⟩ :=
      mfeFrameGo_write_sim c (128 + g) g (by omega) vals 8 0
        { st with msb := some (128 + g) } buf
        rfl (by omega) (by omega)
        (fun φ _ h2 => hbuf (g * 8 + φ) (by omega) (by omega))
    obtain ⟨st', heqO, hcells, hframe⟩ :=
      ih (g + 1) st2 buf (by omega) (by omega)
        (fun j h1 h2 => hbuf j (by omega) (by omega))
    have heq : mfeRegionGo (simT c) c 'w' 0x80 0 buf g (R + 1) st = .ok st' buf := by
      simp only [mfeRegionGo, withCmd, getCmdByte_ADD_MSB, simT, writeSim_ADD_MSB,
        hrb]
      simp only [simT] at heqI heqO
      simp only [heqI, heqO]
    refine ⟨st', heq, ?_, ?_⟩
    · intro ρ φ h1 h2 hφ
      rcases Nat.eq_or_lt_of_le h1 with h | h
      · subst h
        have hrow : ∀ ρ', g + 1 ≤ ρ' → ρ' < g + 1 + R → 128 + g ≠ 128 + ρ' := by
          omega
        rw [hframe (128 + g) φ hrow]
        exact hcellsI φ (by omega) (by omega)
      · exact hcells ρ φ (by omega) (by omega) hφ
    · intro a b hab
      rw [hframe a b (fun ρ h1 h2 => hab ρ (by omega) (by omega))]
      exact hframeI a b (Or.inl (hab g le_rfl (by omega)))

/-- Read-mode MFE outer region loop against the simulated device: the
buffer is filled from cells `(128 + region, frame)` in region-major
order, and the register grid is untouched. -/
theorem mfeRegionGo_read_sim (c : Nat) (vals : Nat → Nat) :
    ∀ (R g : Nat) (st : SimState) (buf : List Nat),
      g + R ≤ 64 →
      (g + R) * 8 ≤ buf.length →
      (∀ ρ φ, g ≤ ρ → ρ < g + R → φ < 8 →
        (st.regs (128 + ρ) φ).head? = some (vals (ρ * 8 + φ))) →
      ∃ (st' : SimState) (buf' : List Nat),
        mfeRegionGo (simT c) c 'r' 0x80 0 buf g R st = .ok st' buf'
        ∧ st'.regs = st.regs
        ∧ buf'.length = buf.length
        ∧ (∀ j : Nat, buf'[j]? =
            if g * 8 ≤ j ∧ j < (g + R) * 8 then some (vals j) else buf[j]?) := by
  intro R
  induction R with
  | zero =>
    intro g st buf _ _ _
    refine ⟨st, buf, rfl, rfl, rfl, fun j => ?_⟩
    rw [if_neg (by omega)]
  | succ R ih =>
    intro g st buf hg hlen hcells
    have hrb : (0x80 &&& 0x80) ||| (g &&& 0x3F) = 128 + g :=
      mfe_region_byte g (by omega)
    obtain ⟨st2, buf2, heqI, hregsI, hmsb2, hlenI, hvalsI⟩ :=
      mfeFrameGo_read_sim c (128 + g) g (by omega) vals 8 0
        { st with msb := some (128 + g) } buf
        rfl (by omega) (by omega)
        (fun φ _ h2 => hcells g φ le_rfl (by omega) (by omega))
    obtain ⟨st', buf', heqO, hregsO, hlenO, hvalsO⟩ :=
      ih (g + 1) st2 buf2 (by omega) (by rw [hlenI]; omega)
        (fun ρ φ h1 h2 hφ => by
          rw [hregsI]
          exact hcells ρ φ (by omega) (by omega) hφ)
    have heq : mfeRegionGo (simT c) c 'r' 0x80 0 buf g (R + 1) st = .ok st' buf' := by
      simp only [mfeRegionGo, withCmd, getCmdByte_ADD_MSB, simT, writeSim_ADD_MSB,
        hrb]
      simp only [simT] at heqI heqO
      simp only [heqI, heqO]
    refine ⟨st', buf', heq, by rw [hregsO, hregsI], by rw [hlenO, hlenI],
      fun j => ?_⟩
    have hI := hvalsI j
    have hO := hvalsO j
    by_cases h1 : (g + 1) * 8 ≤ j ∧ j < (g + 1 + R) * 8
    · rw [hO, if_pos h1, if_pos (by omega)]
    · rw [hO, if_neg h1]
      by_cases h2 : g * 8 ≤ j ∧ j < g * 8 + 8
      · rw [hI, if_pos (by omega), if_pos (by omega)]
      · rw [hI, if_neg (by omega), if_neg (by omega)]

/-- Round trip of a 512-byte MFE buffer through the simulated device. -/
theorem rwMFE_roundtrip (c : Nat) (st : SimState) (w : List Nat)
    (hw : w.length = 512) :
    ∃ st1 st2 : SimState,
      rwMFE (simT c) c w 'w' st = .ok st1 (.done w 512)
      ∧ rwMFE (simT c) c (List.replicate 512 0) 'r' st1 = .ok st2 (.done w 512) := by
  obtain ⟨st1, heqW, hcells, _⟩ :=
    mfeRegionGo_write_sim c (fun j => w.getD j 0) 64 0 st w
      (by omega) (by omega)
      (fun j _ h2 => getElem?_eq_some_getD w j (by omega))
  obtain ⟨st2, buf', heqR, _, hlen', hvals⟩ :=
    mfeRegionGo_read_sim c (fun j => w.getD j 0) 64 0 st1 (List.replicate 512 0)
      (by omega) (by simp only [List.length_replicate]; omega)
      (fun ρ φ _ h2 hφ => by rw [hcells ρ φ (by omega) (by omega) hφ]; rfl)
  have hbw : buf' = w := by
    refine List.ext_getElem? fun j => ?_
    have h' := hvals j
    by_cases hj : j < 512
    · rw [h', if_pos (by omega), getElem?_eq_some_getD w j (by omega)]
    · rw [h', if_neg (by omega),
        List.getElem?_eq_none (by simp only [List.length_replicate]; omega),
        List.getElem?_eq_none (by omega : w.length ≤ j)]
  refine ⟨st1, st2, ?_, ?_⟩
  · rw [rwMFE_run]
    simp only [heqW, hw]
  · rw [rwMFE_run]
    simp only [heqR, hbw, hw]

/-- C4: for every byte sequence of the block's fixed length, writing the
block through the simulated device and immediately reading it back (no
read-time corruption: the transport is the bare `writeSim`/`readSim`
pair) returns the identical bytes — for GenConf (16), DAC (15),
RoTstConf (20) and MFE (512), from any chip id and any prior simulator
state. -/
theorem C4_sim_write_read_roundtrip (c : Nat) (st : SimState)
    (w16 w15 w20 w512 : List Nat) (h16 : w16.length = 16)
    (h15 : w15.length = 15) (h20 : w20.length = 20) (h512 : w512.length = 512) :
    (∃ st1 st2 : SimState,
      rwReg16w (simT c) c "GenConf" (some w16) 'w' st = .ok st1 (.done w16 16)
      ∧ rwReg16w (simT c) c "GenConf" (some (List.replicate 16 0)) 'r' st1
          = .ok st2 (.done w16 16))
    ∧ (∃ st1 st2 : SimState,
      rwReg16w (simT c) c "DAC" (some w15) 'w' st = .ok st1 (.done w15 15)
      ∧ rwReg16w (simT c) c "DAC" (some (List.replicate 15 0)) 'r' st1
          = .ok st2 (.done w15 15))
    ∧ (∃ st1 st2 : SimState,
      rwRoTstConf (simT c) c w20 'w' st = .ok st1 (.done w20 20)
      ∧ rwRoTstConf (simT c) c (List.replicate 20 0) 'r' st1
          = .ok st2 (.done w20 20))
    ∧ (∃ st1 st2 : SimState,
      rwMFE (simT c) c w512 'w' st = .ok st1 (.done w512 512)
      ∧ rwMFE (simT c) c (List.replicate 512 0) 'r' st1
          = .ok st2 (.done w512 512)) :=
  ⟨rwReg16w_GenConf_roundtrip c st w16 h16,
   rwReg16w_DAC_roundtrip c st w15 h15,
   rwRoTstConf_roundtrip c st w20 h20,
   rwMFE_roundtrip c st w512 h512⟩

/-- Witness for C4 at chip id 1 on the fresh simulator with concrete
buffers of the four block lengths. -/
theorem C4_sim_write_read_roundtrip_witness :
    (∃ st1 st2 : SimState,
      rwReg16w (simT 1) 1 "GenConf" (some (List.replicate 16 0xAB)) 'w' initSim
          = .ok st1 (.done (List.replicate 16 0xAB) 16)
      ∧ rwReg16w (simT 1) 1 "GenConf" (some (List.replicate 16 0)) 'r' st1
          = .ok st2 (.done (List.replicate 16 0xAB) 16))
    ∧ (∃ st1 st2 : SimState,
      rwReg16w (simT 1) 1 "DAC" (some (List.replicate 15 0x5A)) 'w' initSim
          = .ok st1 (.done (List.replicate 15 0x5A) 15)
      ∧ rwReg16w (simT 1) 1 "DAC" (some (List.replicate 15 0)) 'r' st1
          = .ok st2 (.done (List.replicate 15 0x5A) 15))
    ∧ (∃ st1 st2 : SimState,
      rwRoTstConf (simT 1) 1 (List.replicate 20 0x55) 'w' initSim
          = .ok st1 (.done (List.replicate 20 0x55) 20)
      ∧ rwRoTstConf (simT 1) 1 (List.replicate 20 0) 'r' st1
          = .ok st2 (.done (List.replicate 20 0x55) 20))
    ∧ (∃ st1 st2 : SimState,
      rwMFE (simT 1) 1 (List.replicate 512 0x3C) 'w' initSim
          = .ok st1 (.done (List.replicate 512 0x3C) 512)
      ∧ rwMFE (simT 1) 1 (List.replicate 512 0) 'r' st1
          = .ok st2 (.done (List.replicate 512 0x3C) 512)) :=
  C4_sim_write_read_roundtrip 1 initSim
    (List.replicate 16 0xAB) (List.replicate 15 0x5A)
    (List.replicate 20 0x55) (List.replicate 512 0x3C)
    (by rw [List.length_replicate]) (by rw [List.length_replicate])
    (by rw [List.length_replicate]) (by rw [List.length_replicate])

/-! ## Claims C6, C7: the bit-flip detection loop -/

/-- A read identical to the reference produces no mismatch. -/
theorem firstMismatch_self (ref : List Nat) : firstMismatch ref ref = none := by
  simp [firstMismatch, List.find?_eq_none]

/-- Two different reads of the same length produce a mismatch index. -/
theorem firstMismatch_of_ne (ref bad : List Nat)
    (hlen : bad.length = ref.length) (hne : bad ≠ ref) :
    ∃ i, firstMismatch ref bad = some i := by
  rcases h : firstMismatch ref bad with _ | i
  · exfalso
    apply hne
    have hall := List.find?_eq_none.mp h
    refine List.ext_getElem? fun j => ?_
    by_cases hj : j < bad.length
    · have hj' : j < ref.length := by omega
      have := hall j (List.mem_range.mpr hj)
      simp only [bne_iff_ne, ne_eq, not_not] at this
      rw [List.getElem?_eq_getElem hj, List.getElem?_eq_getElem hj']
      have hb : bad.getD j 0 = bad[j] := by
        rw [List.getD_eq_getElem?_getD, List.getElem?_eq_getElem hj]; rfl
      have hr : ref.getD j 0 = ref[j] := by
        rw [List.getD_eq_getElem?_getD, List.getElem?_eq_getElem hj']; rfl
      rw [← hb, ← hr, this]
    · rw [List.getElem?_eq_none (by omega), List.getElem?_eq_none (by omega)]
  · exact ⟨i, rfl⟩

/-- Iterations whose read matches the reference only advance the counter. -/
theorem checkBitFlipGo_clean {α : Type} (update : Option (List α)) :
    ∀ (pre : List (List Nat)) (st : FlipState α) (tail : List (List Nat)),
      (∀ ob ∈ pre, firstMismatch st.reference ob = none) →
      checkBitFlipGo update st (pre ++ tail) =
        checkBitFlipGo update { st with counter := st.counter + pre.length } tail := by
  intro pre
  induction pre with
  | nil =>
    intro st tail _
    rfl
  | cons ob pre ih =>
    intro st tail hclean
    have h0 : firstMismatch st.reference ob = none := hclean ob (by simp)
    show (match firstMismatch st.reference ob with
      | none => checkBitFlipGo update { st with counter := st.counter + 1 } (pre ++ tail)
      | some _ => _) = _
    rw [h0]
    rw [ih { st with counter := st.counter + 1 } tail
      (fun ob' hob' => hclean ob' (by simp [hob']))]
    have : st.counter + 1 + pre.length = st.counter + (pre.length + 1) := by omega
    simp only [List.length_cons, this]

/-- The reference snapshot threaded through the loop body is never
modified, whatever the reads and the corrective-action list. -/
theorem checkBitFlipGo_reference {α : Type} (update : Option (List α)) :
    ∀ (reads : List (List Nat)) (st : FlipState α),
      ((checkBitFlipGo update st reads).1).reference = st.reference := by
  intro reads
  induction reads with
  | nil => intro st; rfl
  | cons ob rest ih =>
    intro st
    simp only [checkBitFlipGo]
    split
    · exact ih _
    · split
      · rfl
      · exact ih _

/-- C6: with no corrective-action list (`update is None`), the detection
loop terminates exactly at the first read that differs from the
reference: every earlier identical read only advances the counter, the
mismatching read is reported as the single BitFlipEvent and the loop
returns (result flag `true`) without consuming the remaining reads; and
on a read sequence identical to the reference throughout, the loop never
terminates (flag `false`, no events). -/
theorem C6_no_update_one_report_then_stop {α : Type} (ref bad : List Nat)
    (pre rest : List (List Nat))
    (hpre : ∀ ob ∈ pre, ob = ref)
    (hlen : bad.length = ref.length) (hne : bad ≠ ref) :
    checkBitFlipLoop (none : Option (List α)) (ref :: (pre ++ bad :: rest)) =
      some ({ reference := ref, counter := pre.length + 1,
              events := [(ref, bad, pre.length + 1)], actions := [] }, true)
    ∧ (∀ reads : List (List Nat), (∀ ob ∈ reads, ob = ref) →
        checkBitFlipLoop (none : Option (List α)) (ref :: reads) =
          some ({ reference := ref, counter := reads.length,
                  events := [], actions := [] }, false)) := by
  constructor
  · obtain ⟨i, hi⟩ := firstMismatch_of_ne ref bad hlen hne
    show some (checkBitFlipGo none
      { reference := ref, counter := 0, events := [], actions := [] }
      (pre ++ bad :: rest)) = _
    rw [checkBitFlipGo_clean none pre _ (bad :: rest)
      (fun ob hob => by rw [hpre ob hob]; exact firstMismatch_self ref)]
    show some (match firstMismatch ref bad with
      | none => checkBitFlipGo none
          { reference := ref, counter := 0 + pre.length + 1,
            events := [], actions := [] } rest
      | some _ =>
        ({ reference := ref, counter := 0 + pre.length + 1,
           events := [] ++ [(ref, bad, 0 + pre.length + 1)], actions := [] },
         true)) = _
    rw [hi]
    simp only [Nat.zero_add, List.nil_append]
  · intro reads hreads
    have h := checkBitFlipGo_clean (none : Option (List α)) reads
      { reference := ref, counter := 0, events := [], actions := [] } []
      (fun ob hob => by rw [hreads ob hob]; exact firstMismatch_self ref)
    rw [List.append_nil] at h
    show some (checkBitFlipGo none
      { reference := ref, counter := 0, events := [], actions := [] } reads) = _
    rw [h]
    simp only [Nat.zero_add]
    rfl

/-- Witness for C6: reference `[0,0]`, one clean read, then a read with
bit 3 of byte 0 set, then one further read that is never consumed. -/
theorem C6_no_update_one_report_then_stop_witness :
    checkBitFlipLoop (none : Option (List Nat))
        [[0, 0], [0, 0], [8, 0], [0, 0]] =
      some ({ reference := [0, 0], counter := 2,
              events := [([0, 0], [8, 0], 2)], actions := [] }, true) := by
  have h := (C6_no_update_one_report_then_stop (α := Nat) [0, 0] [8, 0]
    [[0, 0]] [[0, 0]] (by decide) (by decide) (by decide)).1
  simpa using h

/-- C7: when a corrective-action list is supplied, (a) the reference
compared against is byte-for-byte the initial reference on every
iteration — the loop state's reference field is invariant for all reads —
and (b) at the first mismatching read the loop records the event, appends
exactly the supplied actions in list order to the invocation record, and
continues polling the remaining reads with the unmodified original
reference. -/
theorem C7_update_keeps_original_reference {α : Type} (us : List α)
    (ref bad : List Nat) (pre rest : List (List Nat))
    (hpre : ∀ ob ∈ pre, ob = ref)
    (hlen : bad.length = ref.length) (hne : bad ≠ ref) :
    (∀ (st : FlipState α) (reads : List (List Nat)),
        ((checkBitFlipGo (some us) st reads).1).reference = st.reference)
    ∧ checkBitFlipLoop (some us) (ref :: (pre ++ bad :: rest)) =
        some (checkBitFlipGo (some us)
          { reference := ref, counter := pre.length + 1,
            events := [(ref, bad, pre.length + 1)], actions := us } rest) := by
  constructor
  · intro st reads
    exact checkBitFlipGo_reference (some us) reads st
  · obtain ⟨i, hi⟩ := firstMismatch_of_ne ref bad hlen hne
    show some (checkBitFlipGo (some us)
      { reference := ref, counter := 0, events := [], actions := [] }
      (pre ++ bad :: rest)) = _
    rw [checkBitFlipGo_clean (some us) pre _ (bad :: rest)
      (fun ob hob => by rw [hpre ob hob]; exact firstMismatch_self ref)]
    show some (match firstMismatch ref bad with
      | none => checkBitFlipGo (some us)
          { reference := ref, counter := 0 + pre.length + 1,
            events := [], actions := [] } rest
      | some _ => checkBitFlipGo (some us)
          { reference := ref, counter := 0 + pre.length + 1,
            events := [] ++ [(ref, bad, 0 + pre.length + 1)],
            actions := [] ++ us } rest) = _
    rw [hi]
    simp only [Nat.zero_add, List.nil_append]

/-- Witness for C7: one corrective action, a mismatch on the first
polled read, one further read polled with the original reference. -/
theorem C7_update_keeps_original_reference_witness :
    checkBitFlipLoop (some [(7 : Nat)]) [[0, 0], [8, 0], [0, 0]] =
      some (checkBitFlipGo (some [(7 : Nat)])
        { reference := [0, 0], counter := 1,
          events := [([0, 0], [8, 0], 1)], actions := [7] } [[0, 0]])
    ∧ ((checkBitFlipGo (some [(7 : Nat)])
        { reference := [0, 0], counter := 5, events := [],
          actions := [] } [[9, 9]]).1).reference = [0, 0] := by
  have h := C7_update_keeps_original_reference [(7 : Nat)] [0, 0] [8, 0]
    [] [[0, 0]] (by decide) (by decide) (by decide)
  exact ⟨by simpa using h.2, h.1 _ _⟩

/-! ## Claim C2: malformed beam-position lines -/

/-- C2 counterexample: after the valid lines `"start_run 42\n"` and
`"pos 10 20\n"`, the malformed line `"pos x y\n"` leaves the stored
snapshot `{42, 10, 20}` unchanged, but the `ValueError` of `int("x")`
propagates out of `read_msg` (there is no exception handler), so the
subscriber task dies and the following well-formed line
`"pos 30 40\n"` is never read — the stream does not continue. -/
theorem C2_parse_error_kills_subscriber :
    readScanPos initScanPos
        ["start_run 42\n", "pos 10 20\n", "pos x y\n", "pos 30 40\n"] =
      ({ scanId := some 42, scan_x := some 10, scan_y := some 20 },
        some .valueError)
    ∧ (readScanPos initScanPos
        ["start_run 42\n", "pos 10 20\n", "pos x y\n", "pos 30 40\n"]).2
        ≠ none := by decide

/-- C2 amended: a `pos` or `start_run` line whose first numeric field is
malformed raises an uncaught `ValueError`: the previously stored snapshot
is unchanged, but the error propagates out of `read_msg`, terminating the
subscriber so that the remaining lines are never processed. -/
theorem C2_malformed_field_propagates :
    (∀ (st : ScanPos) (line w1 w2 : String) (rest : List String),
        pySplit line = ["pos", w1, w2] → line ≠ "" → pyInt w1 = none →
        readScanPos st (line :: rest) = (st, some .valueError))
    ∧ (∀ (st : ScanPos) (line w1 : String) (rest : List String),
        pySplit line = ["start_run", w1] → line ≠ "" → pyInt w1 = none →
        readScanPos st (line :: rest) = (st, some .valueError)) := by
  constructor
  · intro st line w1 w2 rest hsplit hne hw1
    simp [readScanPos, read_msg, hne, hsplit, hw1]
  · intro st line w1 rest hsplit hne hw1
    simp [readScanPos, read_msg, hne, hsplit, hw1]

/-- Witness for C2's amended claim at the line `"pos x y\n"` after a
fully populated snapshot. -/
theorem C2_malformed_field_propagates_witness :
    readScanPos { scanId := some 42, scan_x := some 10, scan_y := some 20 }
        ["pos x y\n", "pos 30 40\n"] =
      ({ scanId := some 42, scan_x := some 10, scan_y := some 20 },
        some .valueError) :=
  C2_malformed_field_propagates.1
    { scanId := some 42, scan_x := some 10, scan_y := some 20 }
    "pos x y\n" "x" "y\n" ["pos 30 40\n"] (by decide) (by decide) (by decide)

end Mimosis
